import Mathlib

/-!
Verification of the PowerSpawn invocation registry (`src/agent_manager.py`)
and the orchestration-front background workers (`src/mcp_server.py`).

Python dictionaries are modelled as association lists (`List (Key × α)`):
assignment `d[k] = v` keeps the position of an existing key and appends a
fresh key at the end (Python 3.7+ insertion-order semantics, and
`OrderedDict` without `move_to_end`); `d.pop(k)` removes the binding;
`popitem(last=False)` on an `OrderedDict` removes the front binding.
Fresh uuid ids and wall-clock timestamps are inputs from the environment,
so the corresponding Lean functions take them as explicit arguments.
`threading.Event` is modelled by a `Bool` (set / not set): `Event.set()`
is idempotent in Python, which the Boolean model shares.
-/

namespace PowerSpawn

set_option maxRecDepth 10000

abbrev AgentId := String
abbrev Time := String

/-- First-match lookup in an association list (Python `d[k]` / `k in d`). -/
def alookup {α : Type} : List (AgentId × α) → AgentId → Option α
  | [], _ => none
  | (k', v) :: rest, k => if k = k' then some v else alookup rest k

/-- Python dict assignment `d[k] = v`: replace in place if the key exists,
append at the end otherwise. -/
def ainsert {α : Type} : List (AgentId × α) → AgentId → α → List (AgentId × α)
  | [], k, v => [(k, v)]
  | (k', v') :: rest, k, v =>
    if k = k' then (k, v) :: rest else (k', v') :: ainsert rest k v

/-- Python dict `d.pop(k, None)` / `del d[k]`: remove the binding of `k`.
(A Python dict holds each key at most once, so removing every occurrence
agrees with removing the single binding on all states that model a dict.) -/
def aerase {α : Type} : List (AgentId × α) → AgentId → List (AgentId × α)
  | [], _ => []
  | (k', v') :: rest, k =>
    if k = k' then aerase rest k else (k', v') :: aerase rest k

/-- The record stored in `self._running[agent_id]` by `register_start`. -/
structure RunningInfo where
  agentId : AgentId
  agentType : String
  model : String
  startedAt : Time
  task : String
deriving DecidableEq, Repr

/-- The `result_data` dictionary passed to (and stored by) `register_complete`.
`startedAt`/`task` are `Option` because the Python code tests
`"started_at" not in result_data` and backfills; `agentId`/`completedAt`
are `Option` because `register_complete` overwrites them unconditionally.
The remaining fields stand for the provider payload. -/
structure ResultData where
  startedAt : Option Time := none
  task : Option String := none
  agentId : Option AgentId := none
  completedAt : Option Time := none
  success : Bool := true
  output : String := ""
  error : Option String := none
deriving DecidableEq, Repr

/-- The `while len(self._completed) > self._max_completed:
self._completed.popitem(last=False)` loop of `register_complete`. -/
def pruneLoop : List (AgentId × ResultData) → Nat → List (AgentId × ResultData)
  | [], _ => []
  | x :: t, maxC => if (x :: t).length > maxC then pruneLoop t maxC else x :: t

/-- State of `AgentManager` (`src/agent_manager.py`): running map, completed
`OrderedDict`, thread map (thread handles carry no data we track), event map
and the `max_completed` bound. -/
structure AgentManager where
  running : List (AgentId × RunningInfo)
  completed : List (AgentId × ResultData)
  threads : List (AgentId × Unit)
  events : List (AgentId × Bool)
  maxCompleted : Nat
deriving DecidableEq, Repr

/-- `AgentManager.__init__(max_completed=100)`. -/
def AgentManager.init (maxCompleted : Nat := 100) : AgentManager :=
  { running := [], completed := [], threads := [], events := [], maxCompleted }

/-- `AgentManager.register_start`.  The fresh uuid `agentId` and the
timestamp `now` are oracle inputs. -/
def registerStart (m : AgentManager) (agentId : AgentId)
    (agentType model task : String) (now : Time) : AgentManager :=
  { m with
    running := ainsert m.running agentId
      { agentId := agentId, agentType := agentType, model := model,
        startedAt := now, task := (task.take 100).replace "\n" " " },
    events := ainsert m.events agentId false }

/-- `AgentManager.register_thread`. -/
def registerThread (m : AgentManager) (agentId : AgentId) : AgentManager :=
  { m with threads := ainsert m.threads agentId () }

/-- `AgentManager.register_complete`: pop from running (backfilling
`started_at`/`task` into the result when absent), stamp `agent_id` and
`completed_at`, store into completed, prune, drop the thread ref, and set
the completion event when one exists. -/
def registerComplete (m : AgentManager) (agentId : AgentId)
    (rd : ResultData) (now : Time) : AgentManager :=
  let step :=
    match alookup m.running agentId with
    | some info =>
      let rd1 := if rd.startedAt.isNone then { rd with startedAt := some info.startedAt } else rd
      let rd2 := if rd1.task.isNone then { rd1 with task := some info.task } else rd1
      (rd2, aerase m.running agentId)
    | none => (rd, m.running)
  let rdFinal := { step.1 with agentId := some agentId, completedAt := some now }
  { m with
    running := step.2,
    completed := pruneLoop (ainsert m.completed agentId rdFinal) m.maxCompleted,
    threads := aerase m.threads agentId,
    events := if (alookup m.events agentId).isSome
              then ainsert m.events agentId true else m.events }

/-- `AgentManager.get_recent_completed_ids(limit)`, i.e. `keys[-limit:]`.
Python slice semantics for a non-negative `limit`: `keys[-0:]` is the whole
list, `keys[-limit:]` for `limit > 0` drops `len - limit` from the front. -/
def getRecentCompletedIds (m : AgentManager) (limit : Nat := 3) : List AgentId :=
  let keys := m.completed.map Prod.fst
  if limit = 0 then keys else keys.drop (keys.length - limit)

/-- `AgentManager.get_result`. -/
def getResult (m : AgentManager) (agentId : AgentId) : Option ResultData :=
  alookup m.completed agentId

/-- `AgentManager.get_running_info`. -/
def getRunningInfo (m : AgentManager) (agentId : AgentId) : Option RunningInfo :=
  alookup m.running agentId

/-- The last `n` elements of a list.  Spec-side formalisation of
"the last `limit` ids" / "the N most recently completed". -/
def lastN {α : Type} (n : Nat) (l : List α) : List α :=
  (l.reverse.take n).reverse

/-- Result of `AgentManager.wait_for_all`: the three dictionaries the
Python method can return. -/
inductive WaitResult where
  | noAgentsRunning (recentResults : List ResultData)
  | allCompleted (results : List ResultData)
  | timedOut (stillRunning : List AgentId) (completedResults : List ResultData)
deriving DecidableEq, Repr

/-- The `"status"` field of the returned dictionary. -/
def WaitResult.status : WaitResult → String
  | .noAgentsRunning _ => "no_agents_running"
  | .allCompleted _ => "all_completed"
  | .timedOut _ _ => "timeout"

/-- The completed records carried by the result (`results` for
`all_completed`, `completed_results` for `timeout`). -/
def WaitResult.resultsList : WaitResult → List ResultData
  | .noAgentsRunning r => r
  | .allCompleted r => r
  | .timedOut _ r => r

/-- The `still_running` id list (empty for the other statuses). -/
def WaitResult.stillList : WaitResult → List AgentId
  | .timedOut sr _ => sr
  | _ => []

/-- `AgentManager.wait_for_all`, as a function of the registry state when
the running snapshot is taken (`mPre`) and the registry state at collection
time, after the blocking waits (`mPost`).  The blocking phase itself only
consumes wall-clock time and events; every registry observation is either
the snapshot (`mPre`) or the post-wait collection read (`mPost`). -/
def waitForAll (mPre mPost : AgentManager) : WaitResult :=
  let waitingIds := mPre.running.map Prod.fst
  if waitingIds.isEmpty then
    .noAgentsRunning (lastN 5 (mPre.completed.map Prod.snd))
  else
    let results := waitingIds.filterMap (fun aid => alookup mPost.completed aid)
    let stillRunning := waitingIds.filter (fun aid => (alookup mPost.completed aid).isNone)
    if stillRunning.isEmpty then .allCompleted results
    else .timedOut stillRunning results

/-- One mutating registry call, with its oracle inputs (fresh id, clock). -/
inductive RegistryOp where
  | start (agentId : AgentId) (agentType model task : String) (now : Time)
  | complete (agentId : AgentId) (rd : ResultData) (now : Time)
  | regThread (agentId : AgentId)
deriving DecidableEq, Repr

def applyOp (m : AgentManager) : RegistryOp → AgentManager
  | .start agentId agentType model task now => registerStart m agentId agentType model task now
  | .complete agentId rd now => registerComplete m agentId rd now
  | .regThread agentId => registerThread m agentId

def applyOps (m : AgentManager) (ops : List RegistryOp) : AgentManager :=
  ops.foldl applyOp m

/-- The ids freshly generated by `uuid.uuid4()` in `register_start` are new:
each `start` id in the trace is absent from both maps when it is issued. -/
def freshStarts : AgentManager → List RegistryOp → Bool
  | _, [] => true
  | m, op :: rest =>
    (match op with
     | .start agentId _ _ _ _ =>
        (alookup m.running agentId).isNone && (alookup m.completed agentId).isNone
     | _ => true) && freshStarts (applyOp m op) rest

/-- Does the trace contain a `register_start` for this id? -/
def startedIn (agentId : AgentId) (ops : List RegistryOp) : Bool :=
  ops.any (fun op => match op with
    | .start i _ _ _ _ => i = agentId
    | _ => false)

/-- The ids of the `register_complete` calls of a trace, in call order. -/
def completeIds : List RegistryOp → List AgentId
  | [] => []
  | .complete agentId _ _ :: rest => agentId :: completeIds rest
  | _ :: rest => completeIds rest

/-- Number of `register_complete` calls in a trace. -/
def countCompletes (ops : List RegistryOp) : Nat := (completeIds ops).length

/-- Keep, for each id, only its last occurrence (so the list orders ids by
their most recent completion; `List.dedup` keeps last occurrences).
Spec-side helper for "the N most recently completed ids, in completion
order". -/
def latestDistinct (l : List AgentId) : List AgentId :=
  l.dedup

/-- Spec-side reading of C2: the `maxC` most recently completed ids of a
trace, in completion order (an id completed twice counts at its latest
completion). -/
def specRecentIds (maxC : Nat) (ops : List RegistryOp) : List AgentId :=
  lastN maxC (latestDistinct (completeIds ops))

/-! ### Orchestration front (`src/mcp_server.py`) background workers -/

/-- `AgentResult` from `src/api_providers.py` (and the CLI spawners):
`cost_usd` is a Python float; its exact value plays no role in any claim,
so it is embedded as a rational and Python's `round(x, 4)` as exact
rational rounding. -/
structure AgentResult where
  success : Bool
  text : String
  costUsd : Rat := 0
  usage : List (String × Nat) := []
  error : Option String := none
deriving DecidableEq, Repr

/-- `round(x, 4)` (binary-float rounding abstracted to exact rationals). -/
def round4 (c : Rat) : Rat := (round (c * 10000) : Int) / 10000

/-- `sanitize_for_json`: re-encoding with `errors='replace'` is the
identity on the valid Unicode strings that Lean's `String` carries
(and `""` maps to `""`). -/
def sanitizeForJson (s : String) : String := s

/-- A completed-agent record as written by the `mcp_server` workers.
`usage` is absent (`none`) for records that do not set the key. -/
structure CompletedInfo where
  agentId : String
  agentType : String
  model : String
  success : Bool
  result : String
  costUsd : Rat
  completedAt : Time
  error : Option String
  usage : Option (List (String × Nat)) := none
deriving DecidableEq, Repr

/-- The module-level mutable state of `src/mcp_server.py`:
`running_agents`, `completed_agents`, `background_threads`. -/
structure ServerState where
  runningAgents : List (AgentId × RunningInfo)
  completedAgents : List (AgentId × CompletedInfo)
  backgroundThreads : List (AgentId × Unit)
deriving DecidableEq, Repr

/-- `MAX_COMPLETED_AGENTS = 100`. -/
def MAX_COMPLETED_AGENTS : Nat := 100

/-- `_cleanup_completed_agents()`: drop the oldest entries beyond the bound
(`keys[:-MAX]`), removing their thread references too. -/
def cleanupCompletedAgents (st : ServerState) : ServerState :=
  if st.completedAgents.length > MAX_COMPLETED_AGENTS then
    let dropCount := st.completedAgents.length - MAX_COMPLETED_AGENTS
    let removed := (st.completedAgents.take dropCount).map Prod.fst
    { st with
      completedAgents := st.completedAgents.drop dropCount,
      backgroundThreads := removed.foldl aerase st.backgroundThreads }
  else st

/-- Outcome of the provider call made inside the worker: either the
returned `AgentResult`, or an exception escaping the call with message
`str(e)`. -/
inductive ProviderOutcome where
  | ok (r : AgentResult)
  | exn (msg : String)
deriving DecidableEq, Repr

/-- `_run_claude_background` after the provider call has finished:
`try` stores a completed record built from the result and prunes;
`except Exception as e` stores a failed record (no pruning on this path);
`finally` always drops the id from `running_agents` and
`background_threads`.  The worker function itself raises nothing: both
branches end in plain state updates, which the totality of this function
reflects. -/
def runClaudeBackground (st : ServerState) (agentId : String) (model : String)
    (outcome : ProviderOutcome) (now : Time) : ServerState :=
  let st1 :=
    match outcome with
    | .ok r =>
      let rec0 : CompletedInfo :=
        { agentId := agentId, agentType := "claude", model := model,
          success := r.success, result := sanitizeForJson r.text,
          costUsd := round4 r.costUsd, completedAt := now,
          error := r.error }
      cleanupCompletedAgents
        { st with completedAgents := ainsert st.completedAgents agentId rec0 }
    | .exn msg =>
      let rec0 : CompletedInfo :=
        { agentId := agentId, agentType := "claude", model := model,
          success := false, result := "", costUsd := 0,
          completedAt := now, error := some msg }
      { st with completedAgents := ainsert st.completedAgents agentId rec0 }
  { st1 with
    runningAgents := aerase st1.runningAgents agentId,
    backgroundThreads := aerase st1.backgroundThreads agentId }

/-- `_run_grok_background`: same structure as the Claude worker; the
success record additionally stores `usage`. -/
def runGrokBackground (st : ServerState) (agentId : String) (model : String)
    (outcome : ProviderOutcome) (now : Time) : ServerState :=
  let st1 :=
    match outcome with
    | .ok r =>
      let rec0 : CompletedInfo :=
        { agentId := agentId, agentType := "grok", model := model,
          success := r.success, result := sanitizeForJson r.text,
          costUsd := round4 r.costUsd, completedAt := now,
          error := r.error, usage := some r.usage }
      cleanupCompletedAgents
        { st with completedAgents := ainsert st.completedAgents agentId rec0 }
    | .exn msg =>
      let rec0 : CompletedInfo :=
        { agentId := agentId, agentType := "grok", model := model,
          success := false, result := "", costUsd := 0,
          completedAt := now, error := some msg }
      { st with completedAgents := ainsert st.completedAgents agentId rec0 }
  { st1 with
    runningAgents := aerase st1.runningAgents agentId,
    backgroundThreads := aerase st1.backgroundThreads agentId }

/-! ### Derived notions used by the statements -/

/-- The `result_data` value that `register_complete` ends up storing:
merged with the running entry when one exists, then stamped with
`agent_id` and `completed_at`. -/
def completeStored (m : AgentManager) (agentId : AgentId)
    (rd : ResultData) (now : Time) : ResultData :=
  let merged :=
    match alookup m.running agentId with
    | some info =>
      let rd1 := if rd.startedAt.isNone then { rd with startedAt := some info.startedAt } else rd
      if rd1.task.isNone then { rd1 with task := some info.task } else rd1
    | none => rd
  { merged with agentId := some agentId, completedAt := some now }

/-- An id is tracked by the registry: present in running or completed. -/
def inRegistry (m : AgentManager) (agentId : AgentId) : Bool :=
  (alookup m.running agentId).isSome || (alookup m.completed agentId).isSome

/-- The running and completed key sets are disjoint. -/
def DisjointSets (m : AgentManager) : Prop :=
  ∀ k, (alookup m.running k).isSome → alookup m.completed k = none

/-! ### Concrete instances used by witnesses and counterexamples -/

/-- A trace with the default bound `N = 100`: 101 invocations are started
with fresh ids and every one of them completes. -/
def c1Ops : List RegistryOp :=
  ((List.range 101).map fun i => RegistryOp.start (toString i) "claude" "sonnet" "task" "T0")
    ++ ((List.range 101).map fun i => RegistryOp.complete (toString i) {} "T1")

/-- A single started invocation (witness trace). -/
def c1WitnessOps : List RegistryOp :=
  [RegistryOp.start "a" "claude" "sonnet" "task" "T0"]

/-- Three completions where id `"a"` completes twice, around a completion
of `"b"`, with bound `N = 2`. -/
def c2Ops : List RegistryOp :=
  [RegistryOp.complete "a" {} "T1", RegistryOp.complete "b" {} "T2",
   RegistryOp.complete "a" {} "T3"]

/-- Three completions of distinct ids with bound `N = 2`. -/
def c2WitnessOps : List RegistryOp :=
  [RegistryOp.complete "a" {} "T1", RegistryOp.complete "b" {} "T2",
   RegistryOp.complete "c" {} "T3"]

/-- Registry state right after starting agent `"a"` (bound 100). -/
def mStartedA : AgentManager :=
  registerStart (AgentManager.init 100) "a" "claude" "sonnet" "task" "T0"

/-- First and second completion payloads for the duplicate-completion
witness. -/
def payload1 : ResultData := { success := false, output := "first try" }

def payload2 : ResultData := { success := true, output := "second try" }

/-- Bound 1; agent `"a"` is started — the snapshot state of a
`wait_for_all` call. -/
def mPreWait : AgentManager :=
  registerStart (AgentManager.init 1) "a" "claude" "sonnet" "task" "T0"

/-- State at collection time: `"a"` completed during the wait, then a
completion of `"b"` evicted `"a"` from the bounded completed set. -/
def mPostEvict : AgentManager :=
  applyOps mPreWait [RegistryOp.complete "a" {} "T1", RegistryOp.complete "b" {} "T2"]

/-- State at collection time for the witness: `"a"` completed normally. -/
def mPostDone : AgentManager :=
  applyOps mPreWait [RegistryOp.complete "a" {} "T1"]

/-- Registry (bound 100) where `"a"` was started and then completed:
nothing is running. -/
def mDoneA : AgentManager :=
  registerComplete mStartedA "a" payload1 "T1"

/-- Registry (bound 100) with completions of `"a"` then `"b"`. -/
def mTwoDone : AgentManager :=
  applyOps (AgentManager.init 100)
    [RegistryOp.complete "a" {} "T1", RegistryOp.complete "b" {} "T2"]

/-! ### Association-list lemmas -/

theorem alookup_ainsert_self {α : Type} (l : List (AgentId × α)) (k : AgentId) (v : α) :
    alookup (ainsert l k v) k = some v := by
  induction l with
  | nil => simp [ainsert, alookup]
  | cons p rest ih =>
    obtain ⟨k', v'⟩ := p
    by_cases h : k = k' <;> simp [ainsert, alookup, h, ih]

theorem alookup_ainsert_ne {α : Type} (l : List (AgentId × α)) (k k' : AgentId) (v : α)
    (h : k' ≠ k) : alookup (ainsert l k v) k' = alookup l k' := by
  induction l with
  | nil => simp [ainsert, alookup, h]
  | cons p rest ih =>
    obtain ⟨k₀, v₀⟩ := p
    by_cases h1 : k = k₀
    · subst h1
      simp [ainsert, alookup, h]
    · by_cases h2 : k' = k₀ <;> simp [ainsert, alookup, h1, h2, ih]

theorem alookup_aerase_self {α : Type} (l : List (AgentId × α)) (k : AgentId) :
    alookup (aerase l k) k = none := by
  induction l with
  | nil => simp [aerase, alookup]
  | cons p rest ih =>
    obtain ⟨k₀, v₀⟩ := p
    by_cases h : k = k₀
    · subst h
      simpa [aerase] using ih
    · simp [aerase, alookup, h, ih]

theorem alookup_aerase_ne {α : Type} (l : List (AgentId × α)) (k k' : AgentId)
    (h : k' ≠ k) : alookup (aerase l k) k' = alookup l k' := by
  induction l with
  | nil => simp [aerase, alookup]
  | cons p rest ih =>
    obtain ⟨k₀, v₀⟩ := p
    by_cases h1 : k = k₀
    · subst h1
      have h2 : ¬ k' = k := fun h0 => h h0
      simp [aerase, alookup, h2, ih]
    · by_cases h2 : k' = k₀ <;> simp [aerase, alookup, h1, h2, ih]

theorem alookup_eq_none_iff {α : Type} (l : List (AgentId × α)) (k : AgentId) :
    alookup l k = none ↔ k ∉ l.map Prod.fst := by
  induction l with
  | nil => simp [alookup]
  | cons p rest ih =>
    obtain ⟨k₀, v₀⟩ := p
    by_cases h : k = k₀ <;> simp [alookup, h, ih]

theorem alookup_isSome_iff_mem {α : Type} (l : List (AgentId × α)) (k : AgentId) :
    (alookup l k).isSome ↔ k ∈ l.map Prod.fst := by
  induction l with
  | nil => simp [alookup]
  | cons p rest ih =>
    obtain ⟨k₀, v₀⟩ := p
    by_cases h : k = k₀ <;> simp [alookup, h, ih]

theorem ainsert_of_lookup_none {α : Type} (l : List (AgentId × α)) (k : AgentId) (v : α)
    (h : alookup l k = none) : ainsert l k v = l ++ [(k, v)] := by
  induction l with
  | nil => simp [ainsert]
  | cons p rest ih =>
    obtain ⟨k₀, v₀⟩ := p
    by_cases h1 : k = k₀
    · simp [alookup, h1] at h
    · simp only [alookup, if_neg h1] at h
      simp [ainsert, h1, ih h]

theorem keys_ainsert {α : Type} (l : List (AgentId × α)) (k : AgentId) (v : α) :
    (ainsert l k v).map Prod.fst =
      if (alookup l k).isSome then l.map Prod.fst else l.map Prod.fst ++ [k] := by
  induction l with
  | nil => simp [ainsert, alookup]
  | cons p rest ih =>
    obtain ⟨k₀, v₀⟩ := p
    by_cases h1 : k = k₀
    · simp [ainsert, alookup, h1]
    · simp only [ainsert, alookup, if_neg h1, List.map_cons, ih]
      by_cases h2 : (alookup rest k).isSome <;> simp [h2]

theorem length_ainsert_le {α : Type} (l : List (AgentId × α)) (k : AgentId) (v : α) :
    (ainsert l k v).length ≤ l.length + 1 := by
  induction l with
  | nil => simp [ainsert]
  | cons p rest ih =>
    obtain ⟨k₀, v₀⟩ := p
    by_cases h : k = k₀
    · simp [ainsert, h]
    · simp only [ainsert, if_neg h, List.length_cons]
      omega

theorem length_ainsert_of_isSome {α : Type} (l : List (AgentId × α)) (k : AgentId) (v : α)
    (h : (alookup l k).isSome) : (ainsert l k v).length = l.length := by
  induction l with
  | nil => simp [alookup] at h
  | cons p rest ih =>
    obtain ⟨k₀, v₀⟩ := p
    by_cases h1 : k = k₀
    · simp [ainsert, h1]
    · simp only [alookup, if_neg h1] at h
      simp [ainsert, h1, ih h]

theorem ainsert_idem {α : Type} (l : List (AgentId × α)) (k : AgentId) (v : α) :
    ainsert (ainsert l k v) k v = ainsert l k v := by
  induction l with
  | nil => simp [ainsert]
  | cons p rest ih =>
    obtain ⟨k₀, v₀⟩ := p
    by_cases h : k = k₀ <;> simp [ainsert, h, ih]

theorem nodup_keys_ainsert {α : Type} (l : List (AgentId × α)) (k : AgentId) (v : α)
    (h : (l.map Prod.fst).Nodup) : ((ainsert l k v).map Prod.fst).Nodup := by
  rw [keys_ainsert]
  by_cases h1 : (alookup l k).isSome
  · simpa [h1] using h
  · have hk : k ∉ l.map Prod.fst := by
      rw [← alookup_isSome_iff_mem]
      simpa using h1
    simp [h1, List.nodup_append, h, hk]

theorem alookup_append_of_none {α : Type} (l l' : List (AgentId × α)) (k : AgentId)
    (h : alookup l k = none) : alookup (l ++ l') k = alookup l' k := by
  induction l with
  | nil => simp
  | cons p rest ih =>
    obtain ⟨k₀, v₀⟩ := p
    by_cases h1 : k = k₀
    · simp [alookup, h1] at h
    · simp only [alookup, if_neg h1] at h
      simpa [alookup, h1] using ih h

theorem alookup_drop_of_none {α : Type} (l : List (AgentId × α)) (k : AgentId) (i : Nat)
    (h : alookup l k = none) : alookup (l.drop i) k = none := by
  rw [alookup_eq_none_iff] at h ⊢
  intro hmem
  exact h (List.map_subset Prod.fst (List.drop_subset i l) hmem)

theorem pruneLoop_eq_drop (l : List (AgentId × ResultData)) (n : Nat) :
    pruneLoop l n = l.drop (l.length - n) := by
  induction l with
  | nil => simp [pruneLoop]
  | cons p rest ih =>
    simp only [pruneLoop, List.length_cons]
    by_cases h : rest.length + 1 > n
    · rw [if_pos h, ih]
      have h1 : rest.length + 1 - n = (rest.length - n) + 1 := by omega
      rw [h1, List.drop_succ_cons]
    · rw [if_neg h]
      have h1 : rest.length + 1 - n = 0 := by omega
      rw [h1, List.drop_zero]

theorem pruneLoop_length_le (l : List (AgentId × ResultData)) (n : Nat) :
    (pruneLoop l n).length ≤ n := by
  rw [pruneLoop_eq_drop, List.length_drop]
  omega

theorem pruneLoop_length_le_self (l : List (AgentId × ResultData)) (n : Nat) :
    (pruneLoop l n).length ≤ l.length := by
  rw [pruneLoop_eq_drop, List.length_drop]
  omega

theorem pruneLoop_of_le (l : List (AgentId × ResultData)) (n : Nat)
    (h : l.length ≤ n) : pruneLoop l n = l := by
  rw [pruneLoop_eq_drop, Nat.sub_eq_zero_of_le h, List.drop_zero]

theorem lastN_eq_drop {α : Type} (n : Nat) (l : List α) :
    lastN n l = l.drop (l.length - n) := by
  unfold lastN
  rw [List.reverse_take]
  simp

/-! ### `register_complete` projection lemmas -/

theorem aerase_of_none {α : Type} (l : List (AgentId × α)) (k : AgentId)
    (h : alookup l k = none) : aerase l k = l := by
  induction l with
  | nil => simp [aerase]
  | cons p rest ih =>
    obtain ⟨k₀, v₀⟩ := p
    by_cases h1 : k = k₀
    · simp [alookup, h1] at h
    · simp only [alookup, if_neg h1] at h
      simp [aerase, h1, ih h]

theorem registerComplete_running (m : AgentManager) (agentId : AgentId)
    (rd : ResultData) (now : Time) :
    (registerComplete m agentId rd now).running = aerase m.running agentId := by
  unfold registerComplete
  rcases h : alookup m.running agentId with _ | info
  · simp [h, aerase_of_none m.running agentId h]
  · simp [h]

theorem registerComplete_completed (m : AgentManager) (agentId : AgentId)
    (rd : ResultData) (now : Time) :
    (registerComplete m agentId rd now).completed =
      pruneLoop (ainsert m.completed agentId (completeStored m agentId rd now))
        m.maxCompleted := by
  unfold registerComplete completeStored
  rcases h : alookup m.running agentId with _ | info <;> simp [h]

theorem registerComplete_events (m : AgentManager) (agentId : AgentId)
    (rd : ResultData) (now : Time) :
    (registerComplete m agentId rd now).events =
      if (alookup m.events agentId).isSome
      then ainsert m.events agentId true else m.events := by
  unfold registerComplete
  rcases h : alookup m.running agentId with _ | info <;> simp [h]

theorem registerComplete_threads (m : AgentManager) (agentId : AgentId)
    (rd : ResultData) (now : Time) :
    (registerComplete m agentId rd now).threads = aerase m.threads agentId := by
  unfold registerComplete
  rcases h : alookup m.running agentId with _ | info <;> simp [h]

theorem registerComplete_maxCompleted (m : AgentManager) (agentId : AgentId)
    (rd : ResultData) (now : Time) :
    (registerComplete m agentId rd now).maxCompleted = m.maxCompleted := by
  unfold registerComplete
  rcases h : alookup m.running agentId with _ | info <;> simp [h]

theorem completeStored_agentId (m : AgentManager) (agentId : AgentId)
    (rd : ResultData) (now : Time) :
    (completeStored m agentId rd now).agentId = some agentId ∧
    (completeStored m agentId rd now).completedAt = some now := by
  unfold completeStored
  rcases alookup m.running agentId with _ | info <;> simp

theorem completeStored_of_running_none (m : AgentManager) (agentId : AgentId)
    (rd : ResultData) (now : Time) (h : alookup m.running agentId = none) :
    completeStored m agentId rd now =
      { rd with agentId := some agentId, completedAt := some now } := by
  unfold completeStored
  simp [h]

/-- The record just inserted by `register_complete` survives its own
pruning step whenever the completed set was within its bound and the
bound is at least one. -/
theorem lookup_prune_ainsert_self (l : List (AgentId × ResultData)) (k : AgentId)
    (v : ResultData) (n : Nat) (hlen : l.length ≤ n) (hn : 1 ≤ n) :
    alookup (pruneLoop (ainsert l k v) n) k = some v := by
  by_cases hmem : (alookup l k).isSome
  · rw [pruneLoop_of_le _ _ (by rw [length_ainsert_of_isSome l k v hmem]; exact hlen)]
    exact alookup_ainsert_self l k v
  · have hnone : alookup l k = none := by
      rcases h : alookup l k with _ | v'
      · rfl
      · rw [h] at hmem; simp at hmem
    rw [ainsert_of_lookup_none l k v hnone]
    by_cases h2 : l.length + 1 ≤ n
    · rw [pruneLoop_of_le _ _ (by simpa using h2)]
      rw [alookup_append_of_none _ _ _ hnone]
      simp [alookup]
    · have heq : l.length = n := by omega
      rw [pruneLoop_eq_drop]
      have hlen2 : (l ++ [(k, v)]).length - n = 1 := by
        simp only [List.length_append, List.length_singleton]
        omega
      rw [hlen2]
      cases l with
      | nil => simp at heq; omega
      | cons p t =>
        obtain ⟨k₀, v₀⟩ := p
        have h4 : alookup t k = none := by
          by_cases h5 : k = k₀
          · simp [alookup, h5] at hnone
          · simpa [alookup, h5] using hnone
        rw [List.cons_append, List.drop_one, List.tail_cons,
          alookup_append_of_none _ _ _ h4]
        simp [alookup]

theorem registerComplete_completed_self (m : AgentManager) (agentId : AgentId)
    (rd : ResultData) (now : Time)
    (hlen : m.completed.length ≤ m.maxCompleted) (hmax : 1 ≤ m.maxCompleted) :
    alookup (registerComplete m agentId rd now).completed agentId =
      some (completeStored m agentId rd now) := by
  rw [registerComplete_completed]
  exact lookup_prune_ainsert_self _ _ _ _ hlen hmax

theorem registerComplete_completed_length (m : AgentManager) (agentId : AgentId)
    (rd : ResultData) (now : Time) :
    (registerComplete m agentId rd now).completed.length ≤ m.maxCompleted := by
  rw [registerComplete_completed]
  exact pruneLoop_length_le _ _

/-! ### Trace invariants -/

theorem alookup_ainsert_isSome {α : Type} (l : List (AgentId × α)) (k k' : AgentId) (v : α)
    (h : (alookup l k).isSome) : (alookup (ainsert l k' v) k).isSome := by
  by_cases h1 : k = k'
  · subst h1
    simp [alookup_ainsert_self]
  · rwa [alookup_ainsert_ne l k' k v h1]

theorem disjoint_applyOp (m : AgentManager) (op : RegistryOp)
    (hd : DisjointSets m)
    (hf : (match op with
           | .start i _ _ _ _ => (alookup m.running i).isNone && (alookup m.completed i).isNone
           | _ => true) = true) :
    DisjointSets (applyOp m op) := by
  cases op with
  | start sid agentType model task now =>
    simp only [Bool.and_eq_true, Option.isNone_iff_eq_none] at hf
    intro k hk
    simp only [applyOp, registerStart] at hk ⊢
    by_cases h1 : k = sid
    · subst h1
      exact hf.2
    · rw [alookup_ainsert_ne m.running sid k _ h1] at hk
      exact hd k hk
  | complete cid rd now =>
    intro k hk
    rw [applyOp, registerComplete_running] at hk
    rw [applyOp, registerComplete_completed]
    by_cases h1 : k = cid
    · subst h1
      rw [alookup_aerase_self] at hk
      simp at hk
    · rw [alookup_aerase_ne m.running cid k h1] at hk
      rw [pruneLoop_eq_drop]
      apply alookup_drop_of_none
      rw [alookup_ainsert_ne m.completed cid k _ h1]
      exact hd k hk
  | regThread tid =>
    intro k hk
    exact hd k hk

theorem freshStarts_cons (m : AgentManager) (op : RegistryOp) (rest : List RegistryOp) :
    freshStarts m (op :: rest) =
      ((match op with
        | .start i _ _ _ _ => (alookup m.running i).isNone && (alookup m.completed i).isNone
        | _ => true) && freshStarts (applyOp m op) rest) := rfl

theorem disjoint_applyOps (ops : List RegistryOp) (m : AgentManager)
    (hd : DisjointSets m) (hf : freshStarts m ops = true) :
    DisjointSets (applyOps m ops) := by
  induction ops generalizing m with
  | nil => exact hd
  | cons op rest ih =>
    rw [freshStarts_cons, Bool.and_eq_true] at hf
    exact ih (applyOp m op) (disjoint_applyOp m op hd hf.1) hf.2

theorem applyOp_maxCompleted (m : AgentManager) (op : RegistryOp) :
    (applyOp m op).maxCompleted = m.maxCompleted := by
  cases op with
  | start sid agentType model task now => rfl
  | complete cid rd now => exact registerComplete_maxCompleted m cid rd now
  | regThread tid => rfl

theorem registerComplete_length_succ (m : AgentManager) (agentId : AgentId)
    (rd : ResultData) (now : Time) :
    (registerComplete m agentId rd now).completed.length ≤ m.completed.length + 1 := by
  rw [registerComplete_completed]
  calc (pruneLoop (ainsert m.completed agentId _) m.maxCompleted).length
      ≤ (ainsert m.completed agentId _).length := pruneLoop_length_le_self _ _
    _ ≤ m.completed.length + 1 := length_ainsert_le _ _ _

theorem inRegistry_start (m : AgentManager) (sid : AgentId)
    (agentType model task : String) (now : Time) (id : AgentId)
    (h : id = sid ∨ inRegistry m id = true) :
    inRegistry (registerStart m sid agentType model task now) id = true := by
  simp only [inRegistry, registerStart, Bool.or_eq_true] at h ⊢
  rcases h with h | h | h
  · subst h
    left
    simp [alookup_ainsert_self]
  · exact Or.inl (alookup_ainsert_isSome _ _ _ _ h)
  · exact Or.inr h

theorem inRegistry_complete (m : AgentManager) (cid : AgentId)
    (rd : ResultData) (now : Time) (id : AgentId)
    (hlen : m.completed.length + 1 ≤ m.maxCompleted)
    (h : inRegistry m id = true) :
    inRegistry (registerComplete m cid rd now) id = true := by
  have hprune : (registerComplete m cid rd now).completed =
      ainsert m.completed cid (completeStored m cid rd now) := by
    rw [registerComplete_completed]
    exact pruneLoop_of_le _ _ (Nat.le_trans (length_ainsert_le _ _ _) hlen)
  simp only [inRegistry, Bool.or_eq_true] at h ⊢
  by_cases h1 : id = cid
  · subst h1
    right
    rw [hprune]
    simp [alookup_ainsert_self]
  · rcases h with h | h
    · left
      rw [registerComplete_running, alookup_aerase_ne m.running cid id h1]
      exact h
    · right
      rw [hprune, alookup_ainsert_ne m.completed cid id _ h1]
      exact h

theorem countCompletes_cons (op : RegistryOp) (rest : List RegistryOp) :
    countCompletes (op :: rest) =
      (match op with
       | .complete _ _ _ => countCompletes rest + 1
       | _ => countCompletes rest) := by
  cases op <;> simp [countCompletes, completeIds, Nat.add_comm]

theorem startedIn_cons (id : AgentId) (op : RegistryOp) (rest : List RegistryOp) :
    startedIn id (op :: rest) =
      ((match op with
        | .start i _ _ _ _ => decide (i = id)
        | _ => false) || startedIn id rest) := by
  cases op <;> simp [startedIn]

theorem presence_applyOps (ops : List RegistryOp) (m : AgentManager) (id : AgentId)
    (hbudget : m.completed.length + countCompletes ops ≤ m.maxCompleted)
    (h : startedIn id ops = true ∨ inRegistry m id = true) :
    inRegistry (applyOps m ops) id = true := by
  induction ops generalizing m with
  | nil =>
    rcases h with h | h
    · simp [startedIn] at h
    · exact h
  | cons op rest ih =>
    have hmax := applyOp_maxCompleted m op
    cases op with
    | start sid agentType model task now =>
      have hb : (applyOp m (.start sid agentType model task now)).completed.length
          + countCompletes rest ≤ (applyOp m (.start sid agentType model task now)).maxCompleted := by
        rw [hmax]
        simpa [countCompletes_cons] using hbudget
      rcases h with h | h
      · rw [startedIn_cons] at h
        simp only [Bool.or_eq_true, decide_eq_true_eq] at h
        rcases h with h | h
        · exact ih _ hb (Or.inr (inRegistry_start m sid agentType model task now id (Or.inl h.symm)))
        · exact ih _ hb (Or.inl h)
      · exact ih _ hb (Or.inr (inRegistry_start m sid agentType model task now id (Or.inr h)))
    | complete cid rd now =>
      have hcount : countCompletes (RegistryOp.complete cid rd now :: rest)
          = countCompletes rest + 1 := by rw [countCompletes_cons]
      have hlen1 : m.completed.length + 1 ≤ m.maxCompleted := by omega
      have hb : (applyOp m (.complete cid rd now)).completed.length
          + countCompletes rest ≤ (applyOp m (.complete cid rd now)).maxCompleted := by
        rw [hmax]
        have := registerComplete_length_succ m cid rd now
        simp only [applyOp]
        omega
      rcases h with h | h
      · rw [startedIn_cons] at h
        simp only [Bool.or_eq_true] at h
        rcases h with h | h
        · simp at h
        · exact ih _ hb (Or.inl h)
      · exact ih _ hb (Or.inr (inRegistry_complete m cid rd now id hlen1 h))
    | regThread tid =>
      have hb : (applyOp m (.regThread tid)).completed.length
          + countCompletes rest ≤ (applyOp m (.regThread tid)).maxCompleted := by
        rw [hmax]
        simpa [countCompletes_cons] using hbudget
      rcases h with h | h
      · rw [startedIn_cons] at h
        simp only [Bool.or_eq_true] at h
        rcases h with h | h
        · simp at h
        · exact ih _ hb (Or.inl h)
      · exact ih _ hb (Or.inr h)

/-! ### Completed-set shape along a trace -/

theorem lastN_append_absorb {α : Type} (n : Nat) (l l' : List α) :
    lastN n (lastN n l ++ l') = lastN n (l ++ l') := by
  simp only [lastN_eq_drop]
  by_cases h : l.length ≤ n
  · rw [Nat.sub_eq_zero_of_le h, List.drop_zero]
  · rw [List.drop_append_eq_append_drop, List.drop_append_eq_append_drop, List.drop_drop]
    congr 1
    · congr 1
      simp only [List.length_append, List.length_drop]
      omega
    · congr 1
      simp only [List.length_append, List.length_drop]
      omega

theorem applyOps_maxCompleted (ops : List RegistryOp) (m : AgentManager) :
    (applyOps m ops).maxCompleted = m.maxCompleted := by
  induction ops generalizing m with
  | nil => rfl
  | cons op rest ih =>
    calc (applyOps (applyOp m op) rest).maxCompleted
        = (applyOp m op).maxCompleted := ih (applyOp m op)
      _ = m.maxCompleted := applyOp_maxCompleted m op

theorem completed_length_applyOps (ops : List RegistryOp) (m : AgentManager)
    (hlen : m.completed.length ≤ m.maxCompleted) :
    (applyOps m ops).completed.length ≤ m.maxCompleted := by
  induction ops generalizing m with
  | nil => exact hlen
  | cons op rest ih =>
    cases op with
    | start sid agentType model task now => exact ih _ hlen
    | complete cid rd now =>
      apply ih
      rw [applyOp, registerComplete_maxCompleted]
      exact registerComplete_completed_length m cid rd now
    | regThread tid => exact ih _ hlen

theorem keys_registerComplete_fresh (m : AgentManager) (cid : AgentId)
    (rd : ResultData) (now : Time) (hfresh : alookup m.completed cid = none) :
    (registerComplete m cid rd now).completed.map Prod.fst =
      lastN m.maxCompleted (m.completed.map Prod.fst ++ [cid]) := by
  rw [registerComplete_completed, pruneLoop_eq_drop, List.map_drop, lastN_eq_drop]
  have hkeys : (ainsert m.completed cid (completeStored m cid rd now)).map Prod.fst =
      m.completed.map Prod.fst ++ [cid] := by
    rw [keys_ainsert]
    simp [hfresh]
  rw [hkeys]
  congr 1
  have hlen2 := congrArg List.length hkeys
  simp only [List.length_map, List.length_append, List.length_singleton] at hlen2 ⊢
  omega

theorem keys_applyOps_completeIds (ops : List RegistryOp) (m : AgentManager)
    (hnd : (completeIds ops).Nodup)
    (hfresh : ∀ c ∈ completeIds ops, alookup m.completed c = none)
    (hlen : m.completed.length ≤ m.maxCompleted) :
    (applyOps m ops).completed.map Prod.fst =
      lastN m.maxCompleted (m.completed.map Prod.fst ++ completeIds ops) := by
  induction ops generalizing m with
  | nil =>
    simp only [applyOps, List.foldl_nil, completeIds, List.append_nil, lastN_eq_drop,
      List.length_map, Nat.sub_eq_zero_of_le hlen, List.drop_zero]
  | cons op rest ih =>
    cases op with
    | start sid agentType model task now =>
      have hcs : completeIds (RegistryOp.start sid agentType model task now :: rest)
          = completeIds rest := rfl
      rw [hcs] at hnd hfresh ⊢
      exact ih (applyOp m (.start sid agentType model task now)) hnd hfresh hlen
    | complete cid rd now =>
      have hcs : completeIds (RegistryOp.complete cid rd now :: rest)
          = cid :: completeIds rest := rfl
      rw [hcs] at hnd hfresh ⊢
      have hcidfresh : alookup m.completed cid = none := hfresh cid (List.mem_cons_self cid _)
      have hndrest : (completeIds rest).Nodup := hnd.of_cons
      have hcidnot : cid ∉ completeIds rest := (List.nodup_cons.mp hnd).1
      have happ : applyOps m (RegistryOp.complete cid rd now :: rest)
          = applyOps (registerComplete m cid rd now) rest := rfl
      have hmax' : (registerComplete m cid rd now).maxCompleted = m.maxCompleted :=
        registerComplete_maxCompleted m cid rd now
      have hkeys' : (registerComplete m cid rd now).completed.map Prod.fst =
          lastN m.maxCompleted (m.completed.map Prod.fst ++ [cid]) :=
        keys_registerComplete_fresh m cid rd now hcidfresh
      have hfresh' : ∀ c ∈ completeIds rest,
          alookup (registerComplete m cid rd now).completed c = none := by
        intro c hc
        have hne : c ≠ cid := fun h0 => hcidnot (h0 ▸ hc)
        rw [registerComplete_completed, pruneLoop_eq_drop]
        apply alookup_drop_of_none
        rw [alookup_ainsert_ne m.completed cid c _ hne]
        exact hfresh c (List.mem_cons_of_mem cid hc)
      have hlen' : (registerComplete m cid rd now).completed.length
          ≤ (registerComplete m cid rd now).maxCompleted := by
        rw [hmax']
        exact registerComplete_completed_length m cid rd now
      have hstep := ih (registerComplete m cid rd now) hndrest hfresh' hlen'
      rw [hmax', hkeys'] at hstep
      rw [happ, hstep, lastN_append_absorb]
      congr 1
      simp
    | regThread tid =>
      have hcs : completeIds (RegistryOp.regThread tid :: rest) = completeIds rest := rfl
      rw [hcs] at hnd hfresh ⊢
      exact ih (applyOp m (.regThread tid)) hnd hfresh hlen

/-! ### Claim C1 -/

/-- **C1, counterexample.** The claim "every id created by `register_start`
is, at any later point, in exactly one of running/completed — never
neither — after every sequence of registry operations including the
pruning step of `register_complete`" fails on the code: with the default
bound `max_completed = 100`, after 101 freshly-started invocations all
complete, the first id has been evicted by pruning and is in *neither*
set. -/
theorem C1_counterexample :
    freshStarts (AgentManager.init 100) c1Ops = true ∧
    startedIn "0" c1Ops = true ∧
    alookup (applyOps (AgentManager.init 100) c1Ops).running "0" = none ∧
    alookup (applyOps (AgentManager.init 100) c1Ops).completed "0" = none := by
  decide

/-- **C1, amended.** For every id created by `register_start` (ids are
fresh), after every sequence of registry operations the id is never in
both the running and the completed set; and it is in exactly one of the
two sets provided the trace performs at most `max_completed` calls to
`register_complete` (so that pruning never evicts) — otherwise eviction
can leave the id in neither set. -/
theorem C1_exactly_one_unless_evicted (N : Nat) (ops : List RegistryOp) (id : AgentId)
    (hfresh : freshStarts (AgentManager.init N) ops = true)
    (hstarted : startedIn id ops = true) :
    ¬((alookup (applyOps (AgentManager.init N) ops).running id).isSome
      ∧ (alookup (applyOps (AgentManager.init N) ops).completed id).isSome)
    ∧ (countCompletes ops ≤ N →
       ((alookup (applyOps (AgentManager.init N) ops).running id).isSome
        ∨ (alookup (applyOps (AgentManager.init N) ops).completed id).isSome)) := by
  constructor
  · rintro ⟨h1, h2⟩
    have hd : DisjointSets (applyOps (AgentManager.init N) ops) := by
      apply disjoint_applyOps ops _ _ hfresh
      intro k hk
      simp [AgentManager.init, alookup] at hk
    rw [hd id h1] at h2
    simp at h2
  · intro hcount
    have := presence_applyOps ops (AgentManager.init N) id
      (by simpa [AgentManager.init] using hcount) (Or.inl hstarted)
    simpa [inRegistry] using this

/-- **C1, witness** at the trace that just starts `"a"`. -/
theorem C1_witness :
    freshStarts (AgentManager.init 100) c1WitnessOps = true ∧
    startedIn "a" c1WitnessOps = true ∧
    (¬((alookup (applyOps (AgentManager.init 100) c1WitnessOps).running "a").isSome
       ∧ (alookup (applyOps (AgentManager.init 100) c1WitnessOps).completed "a").isSome)
     ∧ (countCompletes c1WitnessOps ≤ 100 →
        ((alookup (applyOps (AgentManager.init 100) c1WitnessOps).running "a").isSome
         ∨ (alookup (applyOps (AgentManager.init 100) c1WitnessOps).completed "a").isSome))) :=
  ⟨by decide, by decide,
   C1_exactly_one_unless_evicted 100 c1WitnessOps "a" (by decide) (by decide)⟩

/-! ### Claim C2 -/

/-- **C2, counterexample.** With bound `N = 2` and the completion sequence
`a, b, a`, the bound is reached (two retained entries) but the retained
ids are `[a, b]` — *first*-completion order — whereas the two most
recently completed ids in completion order are `[b, a]`: a duplicate
`register_complete` keeps the record at its original position instead of
moving it to the end. -/
theorem C2_counterexample :
    (applyOps (AgentManager.init 2) c2Ops).completed.length = 2 ∧
    (applyOps (AgentManager.init 2) c2Ops).completed.map Prod.fst = ["a", "b"] ∧
    specRecentIds 2 c2Ops = ["b", "a"] ∧
    (applyOps (AgentManager.init 2) c2Ops).completed.map Prod.fst ≠ specRecentIds 2 c2Ops := by
  decide

/-- **C2, amended.** After every trace from an empty registry, the
completed set holds at most `N = max_completed` entries; and whenever all
`register_complete` calls of the trace target pairwise distinct ids, the
retained ids are exactly the `N` most recently completed ids in
completion order (strict FIFO eviction).  When an id is completed twice,
the record keeps its original (first-completion) position. -/
theorem C2_bounded_and_fifo (N : Nat) (ops : List RegistryOp) :
    (applyOps (AgentManager.init N) ops).completed.length ≤ N ∧
    ((completeIds ops).Nodup →
      (applyOps (AgentManager.init N) ops).completed.map Prod.fst = specRecentIds N ops) := by
  constructor
  · have := completed_length_applyOps ops (AgentManager.init N) (by simp [AgentManager.init])
    simpa [AgentManager.init] using this
  · intro hnd
    have hkeys := keys_applyOps_completeIds ops (AgentManager.init N) hnd
      (fun c _ => by simp [AgentManager.init, alookup]) (by simp [AgentManager.init])
    rw [hkeys]
    unfold specRecentIds latestDistinct
    rw [List.dedup_eq_self.mpr hnd]
    simp [AgentManager.init]

/-- **C2, witness** at three distinct completions against bound 2. -/
theorem C2_witness :
    (completeIds c2WitnessOps).Nodup ∧
    (applyOps (AgentManager.init 2) c2WitnessOps).completed.length ≤ 2 ∧
    (applyOps (AgentManager.init 2) c2WitnessOps).completed.map Prod.fst
      = specRecentIds 2 c2WitnessOps :=
  ⟨by decide, (C2_bounded_and_fifo 2 c2WitnessOps).1,
   (C2_bounded_and_fifo 2 c2WitnessOps).2 (by decide)⟩

/-! ### Claim C3 -/

/-- **C3.** A second `register_complete` for the same id does not raise
(the embedding is a total function, mirroring that the Python body
performs only guarded dict operations), does not re-signal (the events
map is unchanged by the second call), and leaves exactly one completed
record for the id, equal to the second call's payload (stamped, as the
code always does, with `agent_id` and `completed_at`).  Hypotheses: the
completed keys are duplicate-free and within the bound, and the bound is
at least 1 — facts of every state the API reaches. -/
theorem C3_duplicate_complete (m : AgentManager) (id : AgentId)
    (p1 p2 : ResultData) (t1 t2 : Time)
    (hnd : (m.completed.map Prod.fst).Nodup)
    (hlen : m.completed.length ≤ m.maxCompleted)
    (hmax : 1 ≤ m.maxCompleted) :
    alookup (registerComplete (registerComplete m id p1 t1) id p2 t2).completed id =
      some { p2 with agentId := some id, completedAt := some t2 } ∧
    ((registerComplete (registerComplete m id p1 t1) id p2 t2).completed.map
        Prod.fst).count id = 1 ∧
    (registerComplete (registerComplete m id p1 t1) id p2 t2).events =
      (registerComplete m id p1 t1).events := by
  have h1 : alookup (registerComplete m id p1 t1).completed id =
      some (completeStored m id p1 t1) :=
    registerComplete_completed_self m id p1 t1 hlen hmax
  have h1some : (alookup (registerComplete m id p1 t1).completed id).isSome := by
    rw [h1]; rfl
  have hrun1 : alookup (registerComplete m id p1 t1).running id = none := by
    rw [registerComplete_running]
    exact alookup_aerase_self m.running id
  have hmax1 : (registerComplete m id p1 t1).maxCompleted = m.maxCompleted :=
    registerComplete_maxCompleted m id p1 t1
  have hlen1 : (registerComplete m id p1 t1).completed.length
      ≤ (registerComplete m id p1 t1).maxCompleted := by
    rw [hmax1]
    exact registerComplete_completed_length m id p1 t1
  have hnd1 : ((registerComplete m id p1 t1).completed.map Prod.fst).Nodup := by
    rw [registerComplete_completed, pruneLoop_eq_drop, List.map_drop]
    exact List.Sublist.nodup (List.drop_sublist _ _) (nodup_keys_ainsert _ _ _ hnd)
  have hstored2 : completeStored (registerComplete m id p1 t1) id p2 t2 =
      { p2 with agentId := some id, completedAt := some t2 } :=
    completeStored_of_running_none _ id p2 t2 hrun1
  have hnoprune : (registerComplete (registerComplete m id p1 t1) id p2 t2).completed =
      ainsert (registerComplete m id p1 t1).completed id
        (completeStored (registerComplete m id p1 t1) id p2 t2) := by
    rw [registerComplete_completed]
    apply pruneLoop_of_le
    rw [length_ainsert_of_isSome _ _ _ h1some, hmax1]
    rw [hmax1] at hlen1
    exact hlen1
  refine ⟨?_, ?_, ?_⟩
  · rw [registerComplete_completed_self _ id p2 t2 hlen1 (by rw [hmax1]; exact hmax), hstored2]
  · rw [hnoprune, keys_ainsert, if_pos h1some]
    apply List.count_eq_one_of_mem hnd1
    rw [← alookup_isSome_iff_mem]
    exact h1some
  · rw [registerComplete_events, registerComplete_events]
    by_cases hev : (alookup m.events id).isSome
    · simp [hev, alookup_ainsert_self, ainsert_idem]
    · simp [hev]

/-- **C3, witness**: complete `"a"` twice, right after it was started,
with distinct payloads. -/
theorem C3_witness :
    (mStartedA.completed.map Prod.fst).Nodup ∧
    mStartedA.completed.length ≤ mStartedA.maxCompleted ∧
    1 ≤ mStartedA.maxCompleted ∧
    (alookup (registerComplete (registerComplete mStartedA "a" payload1 "T1") "a"
        payload2 "T2").completed "a" =
      some { payload2 with agentId := some "a", completedAt := some "T2" } ∧
    ((registerComplete (registerComplete mStartedA "a" payload1 "T1") "a"
        payload2 "T2").completed.map Prod.fst).count "a" = 1 ∧
    (registerComplete (registerComplete mStartedA "a" payload1 "T1") "a"
        payload2 "T2").events =
      (registerComplete mStartedA "a" payload1 "T1").events) :=
  ⟨by decide, by decide, by decide,
   C3_duplicate_complete mStartedA "a" payload1 payload2 "T1" "T2"
     (by decide) (by decide) (by decide)⟩

/-! ### Claim C6 -/

/-- **C6, counterexample.** The fired Completion Signal of `"a"` outlives
the completed record: after `"a"` completes (signal set) and a later
completion of `"b"` evicts `"a"` from the bounded completed set
(`max_completed = 1`), a waiter observing the signal fired finds no
completed record on a lock-protected read (`get_result` returns `None`).
So "every waiter that observes the signal fired sees the completed record
on a subsequent read" does not hold unconditionally. -/
theorem C6_counterexample :
    alookup mPostEvict.events "a" = some true ∧
    getResult mPostEvict "a" = none := by
  decide

/-- **C6, amended.** `register_complete` is a single atomic state
transition (one critical section, modelled as one function) performing
insert, then pruning, then signalling; consequently, in the state it
produces, whenever the invocation's event exists its signal is set *and*
the completed record for the id is present (stamped with the id and the
completion time) — so a waiter observing the signal sees the record on a
subsequent lock-protected read, unless intervening completions have
already evicted the record.  Hypotheses: the completed set is within its
bound and the bound is at least 1. -/
theorem C6_signal_implies_record (m : AgentManager) (id : AgentId)
    (rd : ResultData) (t : Time)
    (hev : (alookup m.events id).isSome)
    (hlen : m.completed.length ≤ m.maxCompleted)
    (hmax : 1 ≤ m.maxCompleted) :
    alookup (registerComplete m id rd t).events id = some true ∧
    ∃ r, getResult (registerComplete m id rd t) id = some r ∧
      r.agentId = some id ∧ r.completedAt = some t := by
  constructor
  · rw [registerComplete_events, if_pos hev]
    exact alookup_ainsert_self m.events id true
  · exact ⟨completeStored m id rd t,
      registerComplete_completed_self m id rd t hlen hmax,
      (completeStored_agentId m id rd t).1,
      (completeStored_agentId m id rd t).2⟩

/-- **C6, witness**: completing the started agent `"a"` sets its signal
and stores its record in the produced state. -/
theorem C6_witness :
    (alookup mStartedA.events "a").isSome ∧
    mStartedA.completed.length ≤ mStartedA.maxCompleted ∧
    1 ≤ mStartedA.maxCompleted ∧
    (alookup (registerComplete mStartedA "a" payload1 "T1").events "a" = some true ∧
     ∃ r, getResult (registerComplete mStartedA "a" payload1 "T1") "a" = some r ∧
       r.agentId = some "a" ∧ r.completedAt = some "T1") :=
  ⟨by decide, by decide, by decide,
   C6_signal_implies_record mStartedA "a" payload1 "T1" (by decide) (by decide) (by decide)⟩

/-! ### Claim C4 -/

/-- **C4, counterexample.** Snapshot `["a"]` taken while `"a"` runs; during
the wait `"a"` completes but is then evicted from the bounded completed
set (`max_completed = 1`) by a completion of `"b"`.  At collection time no
snapshot id remains in the running set (it is empty), yet the code
returns status `"timeout"` with `"a"` listed in `still_running`: the
collection loop classifies by absence from *completed*, not by presence
in *running*, so the claim's "no snapshot id in running ⇒ all_completed"
fails. -/
theorem C4_counterexample :
    mPreWait.running.map Prod.fst = ["a"] ∧
    mPostEvict.running = [] ∧
    (waitForAll mPreWait mPostEvict).status = "timeout" ∧
    (waitForAll mPreWait mPostEvict).stillList = ["a"] := by
  decide

/-- **C4, amended.** For every `wait_for_all` whose snapshot of running
ids is non-empty: every snapshot id found in the completed set at
collection time is returned among the completed records (partial results
are never discarded); the status is `"all_completed"` exactly when every
snapshot id is found in completed, and `"timeout"` otherwise;
`still_running` collects the snapshot ids *not found in the completed
set* — which coincide with the ids still in the running set whenever
every snapshot id is in exactly one of the two sets (no eviction
interfered). -/
theorem C4_wait_collection (mPre mPost : AgentManager) (hne : mPre.running ≠ []) :
    ((waitForAll mPre mPost).status = "all_completed" ∨
     (waitForAll mPre mPost).status = "timeout") ∧
    (∀ aid ∈ mPre.running.map Prod.fst, ∀ r, alookup mPost.completed aid = some r →
      r ∈ (waitForAll mPre mPost).resultsList) ∧
    ((waitForAll mPre mPost).status = "all_completed" ↔
      ∀ aid ∈ mPre.running.map Prod.fst, (alookup mPost.completed aid).isSome) ∧
    ((waitForAll mPre mPost).stillList =
      (mPre.running.map Prod.fst).filter (fun aid => (alookup mPost.completed aid).isNone)) ∧
    ((∀ aid ∈ mPre.running.map Prod.fst,
        ((alookup mPost.completed aid).isNone ↔ (alookup mPost.running aid).isSome)) →
      (waitForAll mPre mPost).stillList =
        (mPre.running.map Prod.fst).filter (fun aid => (alookup mPost.running aid).isSome)) := by
  have hids : (mPre.running.map Prod.fst).isEmpty = false := by
    cases hmr : mPre.running with
    | nil => exact absurd hmr hne
    | cons p rest => simp [List.isEmpty]
  have hw : waitForAll mPre mPost =
      (if ((mPre.running.map Prod.fst).filter
            (fun aid => (alookup mPost.completed aid).isNone)).isEmpty = true
       then WaitResult.allCompleted ((mPre.running.map Prod.fst).filterMap
         (fun aid => alookup mPost.completed aid))
       else WaitResult.timedOut
         ((mPre.running.map Prod.fst).filter (fun aid => (alookup mPost.completed aid).isNone))
         ((mPre.running.map Prod.fst).filterMap (fun aid => alookup mPost.completed aid))) := by
    simp only [waitForAll, hids, Bool.false_eq_true, if_false]
  have hmem : ∀ aid ∈ mPre.running.map Prod.fst, ∀ r, alookup mPost.completed aid = some r →
      r ∈ (mPre.running.map Prod.fst).filterMap (fun aid => alookup mPost.completed aid) := by
    intro aid ha r hr
    exact List.mem_filterMap.mpr ⟨aid, ha, hr⟩
  have hstill : (waitForAll mPre mPost).stillList =
      (mPre.running.map Prod.fst).filter (fun aid => (alookup mPost.completed aid).isNone) := by
    rcases hfilter : (mPre.running.map Prod.fst).filter
        (fun aid => (alookup mPost.completed aid).isNone) with _ | ⟨x, xs⟩
    · rw [hw, hfilter]
      rfl
    · rw [hw, hfilter]
      rfl
  refine ⟨?_, ?_, ?_, hstill, ?_⟩
  · rcases hfilter : (mPre.running.map Prod.fst).filter
        (fun aid => (alookup mPost.completed aid).isNone) with _ | ⟨x, xs⟩
    · left
      rw [hw, hfilter]
      rfl
    · right
      rw [hw, hfilter]
      rfl
  · intro aid ha r hr
    rcases hfilter : (mPre.running.map Prod.fst).filter
        (fun aid => (alookup mPost.completed aid).isNone) with _ | ⟨x, xs⟩
    · rw [hw, hfilter]
      exact hmem aid ha r hr
    · rw [hw, hfilter]
      exact hmem aid ha r hr
  · rcases hfilter : (mPre.running.map Prod.fst).filter
        (fun aid => (alookup mPost.completed aid).isNone) with _ | ⟨x, xs⟩
    · rw [hw, hfilter]
      simp only [List.isEmpty, if_true]
      constructor
      · intro _ aid ha
        have := List.filter_eq_nil_iff.mp hfilter aid ha
        simp only [Option.isNone_iff_eq_none] at this
        rcases h0 : alookup mPost.completed aid with _ | r
        · exact absurd h0 this
        · rfl
      · intro _
        rfl
    · rw [hw, hfilter]
      constructor
      · intro hstatus
        exact absurd hstatus (by simp [WaitResult.status])
      · intro hall
        have hx : x ∈ (mPre.running.map Prod.fst).filter
            (fun aid => (alookup mPost.completed aid).isNone) := by
          rw [hfilter]
          exact List.mem_cons_self x xs
        have hx1 := List.of_mem_filter hx
        have hx2 := List.mem_of_mem_filter hx
        have := hall x hx2
        rw [Option.isNone_iff_eq_none] at hx1
        rw [hx1] at this
        simp at this
  · intro hcond
    rw [hstill]
    apply List.filter_congr
    intro aid ha
    have h := hcond aid ha
    cases hA : (alookup mPost.completed aid).isNone <;>
      cases hB : (alookup mPost.running aid).isSome <;> simp_all

/-- **C4, witness**: snapshot `["a"]`, and `"a"` has completed by
collection time — status is `"all_completed"`. -/
theorem C4_witness :
    mPreWait.running ≠ [] ∧
    (waitForAll mPreWait mPostDone).stillList =
      (mPreWait.running.map Prod.fst).filter
        (fun aid => (alookup mPostDone.completed aid).isNone) ∧
    (waitForAll mPreWait mPostDone).status = "all_completed" :=
  ⟨by decide,
   (C4_wait_collection mPreWait mPostDone (by decide)).2.2.2.1,
   (C4_wait_collection mPreWait mPostDone (by decide)).2.2.1.mpr (by decide)⟩

/-! ### Claim C5 -/

/-- **C5.** A `wait_for_all` call whose snapshot finds nothing running
returns `"no_agents_running"` together with the last five completed
records, and does so independently of any later registry state — the
waiting phase is never entered (the code returns from the empty-snapshot
branch before touching any event), which the model expresses by the
result not depending on the collection-time state. -/
theorem C5_no_agents_running (mPre mPost : AgentManager) (h : mPre.running = []) :
    waitForAll mPre mPost =
      WaitResult.noAgentsRunning (lastN 5 (mPre.completed.map Prod.snd)) ∧
    (waitForAll mPre mPost).status = "no_agents_running" ∧
    (∀ mQ : AgentManager, waitForAll mPre mPost = waitForAll mPre mQ) := by
  have hw : ∀ mQ : AgentManager, waitForAll mPre mQ =
      WaitResult.noAgentsRunning (lastN 5 (mPre.completed.map Prod.snd)) := by
    intro mQ
    simp [waitForAll, h, List.isEmpty]
  exact ⟨hw mPost, by rw [hw mPost]; rfl, fun mQ => (hw mPost).trans (hw mQ).symm⟩

/-- **C5, witness**: after `"a"` completed, nothing runs; `wait_for_all`
reports `"no_agents_running"` with the recent records, whatever the
post-wait state. -/
theorem C5_witness :
    mDoneA.running = [] ∧
    waitForAll mDoneA mStartedA =
      WaitResult.noAgentsRunning (lastN 5 (mDoneA.completed.map Prod.snd)) ∧
    (waitForAll mDoneA mStartedA).status = "no_agents_running" :=
  ⟨by decide,
   (C5_no_agents_running mDoneA mStartedA (by decide)).1,
   (C5_no_agents_running mDoneA mStartedA (by decide)).2.1⟩

/-! ### Claim C7 -/

/-- **C7.** In both background workers (`_run_claude_background`,
`_run_grok_background`), whatever the provider call does — return a
result or raise (`ProviderOutcome.exn`) — the `finally` block removes the
invocation from the running set; and an exception is converted into a
failed completed record (`success = False`, `error = str(e)`) stored
under the agent id.  The worker functions are total on every outcome:
nothing escapes the boundary (the `except Exception` arm has no re-raise
and the embedding returns a state in every case). -/
theorem C7_provider_fault_contained (st : ServerState) (agentId model e : String)
    (t : Time) :
    (∀ outcome : ProviderOutcome,
      alookup (runClaudeBackground st agentId model outcome t).runningAgents agentId
          = none ∧
      alookup (runGrokBackground st agentId model outcome t).runningAgents agentId
          = none) ∧
    (∃ rec, alookup (runClaudeBackground st agentId model (.exn e) t).completedAgents
        agentId = some rec ∧
      rec.success = false ∧ rec.error = some e ∧ rec.result = "") ∧
    (∃ rec, alookup (runGrokBackground st agentId model (.exn e) t).completedAgents
        agentId = some rec ∧
      rec.success = false ∧ rec.error = some e ∧ rec.usage = none) := by
  refine ⟨fun outcome => ⟨?_, ?_⟩, ?_, ?_⟩
  · exact alookup_aerase_self _ agentId
  · exact alookup_aerase_self _ agentId
  · exact ⟨_, alookup_ainsert_self _ _ _, rfl, rfl, rfl⟩
  · exact ⟨_, alookup_ainsert_self _ _ _, rfl, rfl, rfl⟩

/-! ### Claim C8 -/

/-- **C8, counterexample.** `get_recent_completed_ids(0)` returns *all*
completed ids, not the last zero of them: Python's `keys[-limit:]` with
`limit = 0` is `keys[0:]`, the whole list.  So "for every limit, exactly
the last `limit` ids" fails at `limit = 0`. -/
theorem C8_counterexample :
    getRecentCompletedIds mTwoDone 0 = ["a", "b"] ∧
    lastN 0 (mTwoDone.completed.map Prod.fst) = [] ∧
    getRecentCompletedIds mTwoDone 0 ≠ lastN 0 (mTwoDone.completed.map Prod.fst) := by
  decide

/-- **C8, amended.** For every registry state and every `limit ≥ 1`,
`get_recent_completed_ids(limit)` returns exactly the last `limit` ids of
the completed set, in its stored (completion) order; at `limit = 0` the
negative-slice idiom returns the whole id list instead. -/
theorem C8_last_limit_ids (m : AgentManager) (limit : Nat) (h : 1 ≤ limit) :
    getRecentCompletedIds m limit = lastN limit (m.completed.map Prod.fst) := by
  simp only [getRecentCompletedIds]
  rw [if_neg (by omega), lastN_eq_drop]

/-- **C8, witness** at `limit = 2` on a two-entry completed set. -/
theorem C8_witness :
    1 ≤ 2 ∧
    getRecentCompletedIds mTwoDone 2 = lastN 2 (mTwoDone.completed.map Prod.fst) :=
  ⟨by decide, C8_last_limit_ids mTwoDone 2 (by decide)⟩

/-! ### Claim C9 -/

/-- **C9.** `get_result` consults only the completed map, so an id that is
running (but not completed) gets the same `None` as an id known to
neither set: the registry-level lookup cannot distinguish "still running"
from "unknown". -/
theorem C9_get_result_indistinguishable (m : AgentManager) (idRunning idUnknown : AgentId)
    (h1 : (alookup m.running idRunning).isSome)
    (h2 : alookup m.completed idRunning = none)
    (h3 : alookup m.running idUnknown = none)
    (h4 : alookup m.completed idUnknown = none) :
    getResult m idRunning = none ∧ getResult m idUnknown = none ∧
    getResult m idRunning = getResult m idUnknown ∧
    (∀ m' : AgentManager, m'.completed = m.completed →
      getResult m' idRunning = getResult m idRunning) := by
  refine ⟨h2, h4, ?_, ?_⟩
  · show alookup m.completed idRunning = alookup m.completed idUnknown
    rw [h2, h4]
  · intro m' hm
    show alookup m'.completed idRunning = alookup m.completed idRunning
    rw [hm]

/-- **C9, witness**: `"a"` is running, `"zz"` is unknown; both lookups
give `None`. -/
theorem C9_witness :
    (alookup mStartedA.running "a").isSome ∧
    (getResult mStartedA "a" = none ∧ getResult mStartedA "zz" = none ∧
     getResult mStartedA "a" = getResult mStartedA "zz" ∧
     (∀ m' : AgentManager, m'.completed = mStartedA.completed →
       getResult m' "a" = getResult mStartedA "a")) :=
  ⟨by decide,
   C9_get_result_indistinguishable mStartedA "a" "zz"
     (by decide) (by decide) (by decide) (by decide)⟩

/-! ### Claim C10 -/

theorem events_applyOp_isSome (m : AgentManager) (op : RegistryOp) (id : AgentId)
    (h : (alookup m.events id).isSome) :
    (alookup (applyOp m op).events id).isSome := by
  cases op with
  | start sid agentType model task now =>
    exact alookup_ainsert_isSome m.events id sid false h
  | complete cid rd now =>
    show (alookup (registerComplete m cid rd now).events id).isSome
    rw [registerComplete_events]
    by_cases hc : (alookup m.events cid).isSome
    · rw [if_pos hc]
      exact alookup_ainsert_isSome m.events id cid true h
    · rw [if_neg hc]
      exact h
  | regThread tid => exact h

/-- **C10.** No registry operation ever removes an id's Completion Signal:
`register_start` adds one, `register_complete` sets-but-keeps it
(the code comment says "Don't delete event yet, waiter might need it"),
and pruning touches only completed records — so an event present in the
signals map is still present after any sequence of registry operations;
the signals map grows monotonically even as completed records are
evicted. -/
theorem C10_events_never_removed (m : AgentManager) (ops : List RegistryOp) (id : AgentId)
    (h : (alookup m.events id).isSome) :
    (alookup (applyOps m ops).events id).isSome := by
  induction ops generalizing m with
  | nil => exact h
  | cons op rest ih => exact ih (applyOp m op) (events_applyOp_isSome m op id h)

/-- **C10, witness**: after `"a"` completes and `"b"` completes on top,
`"a"`'s event is still in the signals map. -/
theorem C10_witness :
    (alookup mStartedA.events "a").isSome ∧
    (alookup (applyOps mStartedA
      [RegistryOp.complete "a" payload1 "T1",
       RegistryOp.complete "b" payload1 "T2"]).events "a").isSome :=
  ⟨by decide,
   C10_events_never_removed mStartedA
     [RegistryOp.complete "a" payload1 "T1", RegistryOp.complete "b" payload1 "T2"]
     "a" (by decide)⟩

end PowerSpawn
